import Mathlib

/-!
Verification development for the replay orchestration engine of the
`grafika_differ` repository: a shallow embedding of the transcript parser
(`src/core/event_parser.py`), the event model (`src/core/event_types.py`)
and the automation runner (`src/core/automation_runner.py`, `src/main.py`),
together with theorems settling the specification claims.

Conventions of the embedding: Python `float` values are modelled as exact
decimal numbers `Dec` (all numbers in the program are short decimal
literals and results of their sums and differences), whose rational value
is given by `Dec.toRat`; text is modelled as `List Char`; transcript lines
come from `str.splitlines()` and therefore contain no newline characters;
wall-clock time in the schedulers is idealised to exact arithmetic with
zero capture latency.
-/

namespace GD

/-- Exact decimal number with value `m / 10 ^ e`, the embedding of the
Python floats appearing in this program (all of which carry exact decimal
values). -/
structure Dec where
  m : Int
  e : Nat
deriving DecidableEq, Repr

/-- Rational value of a decimal. -/
def Dec.toRat (a : Dec) : ℚ := (a.m : ℚ) / (10 : ℚ) ^ a.e

/-- The decimal 0.0. -/
def Dec.zero : Dec := ⟨0, 0⟩

/-- Decimal with integer value. -/
def Dec.ofInt (n : Int) : Dec := ⟨n, 0⟩

/-- Negation. -/
def Dec.neg (a : Dec) : Dec := ⟨-a.m, a.e⟩

/-- Difference of two decimals. -/
def Dec.sub (a b : Dec) : Dec :=
  ⟨a.m * (10 : Int) ^ b.e - b.m * (10 : Int) ^ a.e, a.e + b.e⟩

/-- Strictly negative test. -/
def Dec.isNeg (a : Dec) : Bool := decide (a.m < 0)

/-- Non-positive test. -/
def Dec.isNonPos (a : Dec) : Bool := decide (a.m ≤ 0)

/-- Strictly positive test. -/
def Dec.isPos (a : Dec) : Bool := decide (0 < a.m)

/-- Multiply by `10 ^ k` (used for the seconds-to-milliseconds scaling). -/
def Dec.mulPow10 (a : Dec) (k : Nat) : Dec := ⟨a.m * (10 : Int) ^ k, a.e⟩

/-- Python `int(round(x))` on a decimal: round half to even. -/
def roundHalfEven (d : Dec) : Int :=
  let p : Int := (10 : Int) ^ d.e
  let f := d.m.fdiv p
  let r := d.m - f * p
  if 2 * r < p then f
  else if p < 2 * r then f + 1
  else if f % 2 = 0 then f else f + 1

/-- Python regex `\s` restricted to ASCII input: space, tab, newline,
carriage return, vertical tab, form feed. -/
def isSpaceChar (c : Char) : Bool :=
  c = ' ' || c = '\t' || c = '\n' || c = '\r' || c = '\x0b' || c = '\x0c'

/-- ASCII decimal digit. -/
def isDigitChar (c : Char) : Bool := '0' ≤ c && c ≤ '9'

/-- Greedy `\s*`. -/
def dropSpaces (s : List Char) : List Char := s.dropWhile isSpaceChar

/-- Python `str.strip()`: remove leading and trailing whitespace. -/
def stripChars (s : List Char) : List Char :=
  ((dropSpaces s).reverse.dropWhile isSpaceChar).reverse

/-- Value of a digit string. -/
def digitsToNat (ds : List Char) : Nat :=
  ds.foldl (fun acc c => 10 * acc + (c.toNat - '0'.toNat)) 0

/-- Match the regex fragment `\d+(?:\.\d+)?` at the start of `s`; on success
return the decimal value and the unconsumed rest.  A dot not followed by a
digit is left unconsumed, as regex backtracking drops the optional group. -/
def matchDecimal (s : List Char) : Option (Dec × List Char) :=
  let ip := s.takeWhile isDigitChar
  let r := s.dropWhile isDigitChar
  if ip.isEmpty then none
  else
    match r with
    | '.' :: r2 =>
      let fp := r2.takeWhile isDigitChar
      let r3 := r2.dropWhile isDigitChar
      if fp.isEmpty then some (⟨(digitsToNat ip : Int), 0⟩, '.' :: r2)
      else
        some (⟨(digitsToNat ip : Int) * (10 : Int) ^ fp.length + (digitsToNat fp : Int),
               fp.length⟩, r3)
    | _ => some (⟨(digitsToNat ip : Int), 0⟩, r)

/-- Match `-?\d+(?:\.\d+)?` at the start of `s`. -/
def matchSignedDecimal (s : List Char) : Option (Dec × List Char) :=
  match s with
  | '-' :: r => (matchDecimal r).map (fun p => (p.1.neg, p.2))
  | _ => matchDecimal s

/-- Case-insensitive character comparison, as under `re.IGNORECASE`. -/
def charCIEq (a b : Char) : Bool := a.toLower = b.toLower

/-- Strip a literal pattern from the front of a string, case-insensitively;
return the rest on success. -/
def stripPrefixCI : List Char → List Char → Option (List Char)
  | [], s => some s
  | _ :: _, [] => none
  | p :: ps, c :: cs => if charCIEq p c then stripPrefixCI ps cs else none

/-- Tail of the regexes ending in `\s*(?P<g>.+)`: the greedy whitespace skip
followed by a nonempty capture reaching the end of the line.  When the
remaining text is nonempty but all whitespace, backtracking shortens the
`\s*` by one character, so the capture is the single last character. -/
def tailCapture (r : List Char) : Option (List Char) :=
  let d := dropSpaces r
  if d.isEmpty then
    match r.reverse with
    | [] => none
    | c :: _ => some [c]
  else some d

/-- Model of `DELTA_RE.match`, pattern
`\[\s*\+(?P<delta>\d+(?:\.\d+)?)s\s*\]\s*(?P<body>.+)$` (case sensitive).
Returns the timestamp value and the body capture. -/
def matchDelta (line : List Char) : Option (Dec × List Char) :=
  match line with
  | '[' :: r1 =>
    match dropSpaces r1 with
    | '+' :: r2 =>
      match matchDecimal r2 with
      | some (ts, 's' :: r4) =>
        (match dropSpaces r4 with
         | ']' :: r6 => (tailCapture r6).map (fun body => (ts, body))
         | _ => none)
      | _ => none
    | _ => none
  | _ => none

/-- The characters the button class `[LR]` accepts under `re.IGNORECASE`. -/
def buttonChars : List Char := ['L', 'l', 'R', 'r']

/-- Model of `MOUSE_RE.match` (IGNORECASE), pattern
`onMouse(?P<state>Pressed|Released)\s+(?P<button>[LR]):\s*(?P<details>.+)`.
Returns (is-press, button character as written, details capture). -/
def matchMouse (body : List Char) : Option (Bool × Char × List Char) :=
  let cont := fun (isPress : Bool) (r2 : List Char) =>
    match r2 with
    | c :: rest =>
      if isSpaceChar c then
        match dropSpaces rest with
        | b :: ':' :: r5 =>
          if b ∈ buttonChars then
            (tailCapture r5).map (fun d => (isPress, b, d))
          else none
        | _ => none
      else none
    | [] => none
  match stripPrefixCI "onmouse".toList body with
  | none => none
  | some r =>
    match stripPrefixCI "pressed".toList r with
    | some r2 => cont true r2
    | none =>
      match stripPrefixCI "released".toList r with
      | some r2 => cont false r2
      | none => none

/-- The key class `[A-Z0-9]` under `re.IGNORECASE`: ASCII letters and digits. -/
def isKeyChar (c : Char) : Bool :=
  ('A' ≤ c && c ≤ 'Z') || ('a' ≤ c && c ≤ 'z') || ('0' ≤ c && c ≤ '9')

/-- Model of `KEY_RE.match` (IGNORECASE), pattern
`onKey(?P<state>Pressed|Released)\s+(?P<key>[A-Z0-9]):\s*(?P<details>.+)`.
Returns (is-press, key character). -/
def matchKey (body : List Char) : Option (Bool × Char) :=
  let cont := fun (isPress : Bool) (r2 : List Char) =>
    match r2 with
    | c :: rest =>
      if isSpaceChar c then
        match dropSpaces rest with
        | k :: ':' :: r5 =>
          if isKeyChar k then (tailCapture r5).map (fun _ => (isPress, k)) else none
        | _ => none
      else none
    | [] => none
  match stripPrefixCI "onkey".toList body with
  | none => none
  | some r =>
    match stripPrefixCI "pressed".toList r with
    | some r2 => cont true r2
    | none =>
      match stripPrefixCI "released".toList r with
      | some r2 => cont false r2
      | none => none

/-- Match `window\((?P<x>-?\d+(?:\.\d+)?),(?P<y>-?\d+(?:\.\d+)?)\)`
(IGNORECASE) at the start of `s`. -/
def matchWindowAt (s : List Char) : Option (Dec × Dec) :=
  match stripPrefixCI "window(".toList s with
  | none => none
  | some r =>
    match matchSignedDecimal r with
    | some (x, ',' :: r2) =>
      match matchSignedDecimal r2 with
      | some (y, ')' :: _) => some (x, y)
      | _ => none
    | _ => none

/-- Model of `WINDOW_RE.search`: leftmost occurrence. -/
def searchWindow : List Char → Option (Dec × Dec)
  | [] => none
  | c :: rest =>
    match matchWindowAt (c :: rest) with
    | some xy => some xy
    | none => searchWindow rest

/-- Match `world\((?P<x>-?\d+(?:\.\d+)?),(?P<y>-?\d+(?:\.\d+)?)\)`
(IGNORECASE) at the start of `s`. -/
def matchWorldAt (s : List Char) : Option (Dec × Dec) :=
  match stripPrefixCI "world(".toList s with
  | none => none
  | some r =>
    match matchSignedDecimal r with
    | some (x, ',' :: r2) =>
      match matchSignedDecimal r2 with
      | some (y, ')' :: _) => some (x, y)
      | _ => none
    | _ => none

/-- Model of `WORLD_RE.search`: leftmost occurrence. -/
def searchWorld : List Char → Option (Dec × Dec)
  | [] => none
  | c :: rest =>
    match matchWorldAt (c :: rest) with
    | some xy => some xy
    | none => searchWorld rest

/-- Embedding of the `Event` dataclass of `event_types.py`.  Timestamps and
deltas are exact decimals, the raw source line is a character list. -/
structure Event where
  index : Nat
  timestamp : Dec
  delta : Dec
  action : String
  button : Option String
  window_point : Option (Int × Int)
  world_point : Option (Dec × Dec)
  raw : List Char
deriving DecidableEq, Repr

/-- `Event.label`: the action, with the button appended when the button is
truthy (present and nonempty). -/
def Event.label (e : Event) : String :=
  match e.button with
  | some b => if b.isEmpty then e.action else e.action ++ "_" ++ b
  | none => e.action

/-- The parse failures `ScriptParser._parse_line` can raise, each carrying
the offending line as the Python messages do. -/
inductive ParseErr where
  | timestamp (line : List Char)
  | badButton (line : List Char)
  | unsupported (line : List Char)
deriving DecidableEq, Repr

/-- The line a parse error identifies. -/
def ParseErr.line : ParseErr → List Char
  | .timestamp l => l
  | .badButton l => l
  | .unsupported l => l

/-- Needle of the exit-line test `"exiting application" in body.lower()`. -/
def exitNeedle : List Char := "exiting application".toList

/-- Python substring containment `needle in hay`. -/
def containsSub (needle : List Char) : List Char → Bool
  | [] => needle.isEmpty
  | c :: rest => if needle.isPrefixOf (c :: rest) then true else containsSub needle rest

/-- Embedding of `ScriptParser._parse_line`: timestamp first, then the mouse,
key and exit forms in order, else an unsupported-line error. -/
def parseLine (line : List Char) (eventIndex : Nat) : Except ParseErr Event :=
  match matchDelta line with
  | none => .error (.timestamp line)
  | some (ts, body) =>
    match matchMouse body with
    | some (isPress, b, details) =>
      let windowPoint := (searchWindow details).map
        (fun p => (roundHalfEven p.1, roundHalfEven p.2))
      let worldPoint := searchWorld details
      let action := if isPress then "mouse_press" else "mouse_release"
      let bu := b.toUpper
      let buttonName := if bu = 'L' then "left" else "right"
      if bu = 'L' ∨ bu = 'R' then
        .ok { index := eventIndex, timestamp := ts, delta := Dec.zero, action := action,
              button := some buttonName, window_point := windowPoint,
              world_point := worldPoint, raw := line }
      else .error (.badButton line)
    | none =>
      match matchKey body with
      | some (isPress, k) =>
        .ok { index := eventIndex, timestamp := ts, delta := Dec.zero,
              action := if isPress then "key_press" else "key_release",
              button := some (String.mk [k]), window_point := none,
              world_point := none, raw := line }
      | none =>
        if containsSub exitNeedle (body.map Char.toLower) then
          .ok { index := eventIndex, timestamp := ts, delta := Dec.zero, action := "exit",
                button := none, window_point := none, world_point := none, raw := line }
        else .error (.unsupported line)

/-- Loop of `ScriptParser.parse`: strip each line, skip blanks, parse the
rest with the running event count as index, abort on the first failure. -/
def parseGo : List (List Char) → List Event → Except ParseErr (List Event)
  | [], acc => .ok acc
  | l :: ls, acc =>
    let line := stripChars l
    if line.isEmpty then parseGo ls acc
    else
      match parseLine line acc.length with
      | .error e => .error e
      | .ok ev => parseGo ls (acc ++ [ev])

/-- Loop of `ScriptParser._assign_deltas`: running previous timestamp,
clamp negative differences to zero, update the previous to the event's own
timestamp. -/
def assignDeltasGo (prev : Dec) : List Event → List Event
  | [] => []
  | e :: rest =>
    let d0 := e.timestamp.sub prev
    let d := if d0.isNeg then Dec.zero else d0
    { e with delta := d } :: assignDeltasGo e.timestamp rest

/-- `ScriptParser._assign_deltas`, starting from previous timestamp 0.0. -/
def assignDeltas (events : List Event) : List Event := assignDeltasGo Dec.zero events

/-- Embedding of `ScriptParser.parse`. -/
def parse (lines : List (List Char)) : Except ParseErr (List Event) :=
  match parseGo lines [] with
  | .error e => .error e
  | .ok evts => .ok (assignDeltas evts)

/-- Characters of the sanitiser class `[A-Za-z0-9_]`. -/
def isWordChar (c : Char) : Bool :=
  ('A' ≤ c && c ≤ 'Z') || ('a' ≤ c && c ≤ 'z') || ('0' ≤ c && c ≤ '9') || c = '_'

/-- Loop of the substitution `re.sub(r"[^A-Za-z0-9_]+", "_", s)`: the flag
records whether the previous character belonged to a non-word run, whose
remaining characters are absorbed into the single underscore already
emitted. -/
def collapseGo : Bool → List Char → List Char
  | _, [] => []
  | inRun, c :: cs =>
    if isWordChar c then c :: collapseGo false cs
    else if inRun then collapseGo true cs
    else '_' :: collapseGo true cs

/-- `re.sub(r"[^A-Za-z0-9_]+", "_", s)`: every maximal run of characters
outside the class becomes one underscore. -/
def collapseNonWordRuns (s : List Char) : List Char := collapseGo false s

/-- Python `str.strip("_")`: remove leading and trailing underscores. -/
def stripUnderscores (s : List Char) : List Char :=
  ((s.dropWhile (fun c => c = '_')).reverse.dropWhile (fun c => c = '_')).reverse

/-- The `safe_label` computation of `_event_screenshot_path`: collapse runs
of non-word characters to single underscores, strip enclosing underscores,
fall back to the literal `event` when the result is empty. -/
def sanitizeLabel (s : List Char) : List Char :=
  let t := stripUnderscores (collapseNonWordRuns s)
  if t.isEmpty then "event".toList else t

/-- Sanitisation as claim C5 words it (for comparison with `sanitizeLabel`,
which embeds the code): each single character outside `[A-Za-z0-9_]` is
replaced by one underscore, with the same stripping and fallback. -/
def sanitizeLabelPerCharSpec (s : List Char) : List Char :=
  let t := stripUnderscores (s.map (fun c => if isWordChar c then c else '_'))
  if t.isEmpty then "event".toList else t

/-- Character of a single decimal digit. -/
def digitChar (d : Nat) : Char := Char.ofNat (48 + d)

/-- Base-10 printing loop: prepend the digits of `n` to `acc`; the fuel is
an upper bound on the digit count. -/
def natDigitsGo : Nat → Nat → List Char → List Char
  | 0, _, acc => acc
  | fuel + 1, n, acc =>
    if n < 10 then digitChar n :: acc
    else natDigitsGo fuel (n / 10) (digitChar (n % 10) :: acc)

/-- Base-10 digit characters of a natural number (no sign, no padding), as
Python `"%d"` prints it. -/
def natDigits (n : Nat) : List Char := natDigitsGo (n + 1) n []

/-- Python format `{n:0wd}` for a natural number: zero-pad to a minimum
width. -/
def padZeros (w : Nat) (n : Nat) : List Char :=
  let ds := natDigits n
  List.replicate (w - ds.length) '0' ++ ds

/-- Python format `{i:0wd}` for an integer: the sign occupies one position
of the width. -/
def padIntZeros (w : Nat) (i : Int) : List Char :=
  if i < 0 then '-' :: padZeros (w - 1) i.natAbs else padZeros w i.natAbs

/-- Embedding of `_next_capture_path`: the filename built from the running
capture index, which then advances by one; the shared directory prefix is
omitted.  Returns (filename, next index). -/
def nextCapturePath (idx : Nat) (label : List Char) : List Char × Nat :=
  (padZeros 3 idx ++ '_' :: (label ++ ".png".toList), idx + 1)

/-- Filenames of a sequence of capture requests served from counter value
`idx` on. -/
def capturePathsFrom (idx : Nat) : List (List Char) → List (List Char)
  | [] => []
  | lab :: rest =>
    let (p, idx2) := nextCapturePath idx lab
    p :: capturePathsFrom idx2 rest

/-- Numeric counter prefix of a capture filename. -/
def counterOf (f : List Char) : Nat := digitsToNat (f.takeWhile isDigitChar)

/-- Label of `_event_screenshot_path`:
`{millis:07d}_{index:03d}_{safe_label}` with
`millis = int(round(timestamp * 1000))`. -/
def eventScreenshotLabel (e : Event) : List Char :=
  padIntZeros 7 (roundHalfEven (e.timestamp.mulPow10 3)) ++ '_' ::
    (padZeros 3 e.index ++ '_' :: sanitizeLabel e.label.toList)

/-- `_event_screenshot_path`: the event label fed through
`_next_capture_path`. -/
def eventScreenshotPath (idx : Nat) (e : Event) : List Char × Nat :=
  nextCapturePath idx (eventScreenshotLabel e)

/-- Outcome environment of one Windows tiered capture: whether a client
region could be computed (`_client_region_windows` catches its own errors
and yields none), and whether each underlying capture primitive succeeds
rather than raises. -/
structure WinCaptureEnv where
  clientRegion : Option (Int × Int × Int × Int)
  regionShotOk : Bool
  windowShotOk : Bool
  screenShotOk : Bool
deriving DecidableEq, Repr

/-- Which tier produced the written image. -/
inductive CaptureTier where
  | clientRegion
  | nativeWindow
  | fullScreen
deriving DecidableEq, Repr

/-- Embedding of `_capture_window_windows`: the client-region tier when a
region is available, falling back to the native window capture, then to
`_capture_screen_windows`.  The first two tiers catch and log their
exceptions; the final full-screen call is not wrapped, so its failure
escapes the operation (modelled as `.error`). -/
def captureWindowWindows (env : WinCaptureEnv) : Except Unit CaptureTier :=
  match env.clientRegion with
  | some _ =>
    if env.regionShotOk then .ok .clientRegion
    else if env.windowShotOk then .ok .nativeWindow
    else if env.screenShotOk then .ok .fullScreen
    else .error ()
  | none =>
    if env.windowShotOk then .ok .nativeWindow
    else if env.screenShotOk then .ok .fullScreen
    else .error ()

/-- Result of one Linux capture request. -/
inductive LinuxCaptureResult where
  | window
  | fullScreen
  | loggedTotalFailure
deriving DecidableEq, Repr

/-- The X11 backend capture primitives catch all of their own exceptions
and report success as a boolean: an exception inside the backend
(`internalThrow`) is swallowed and reported as failure. -/
def x11CaptureOk (internalThrow : Bool) (toolOk : Bool) : Bool :=
  if internalThrow then false else toolOk

/-- Embedding of `_capture_window_linux`: native window capture first, full
screen on failure; both primitives return booleans, so the operation is a
total function — it never raises, and total failure is logged. -/
def captureWindowLinux (winThrow winOk scrThrow scrOk : Bool) : LinuxCaptureResult :=
  if x11CaptureOk winThrow winOk then .window
  else if x11CaptureOk scrThrow scrOk then .fullScreen
  else .loggedTotalFailure

/-- One run of the interval loop of `run_stealth`, idealised to zero
capture latency and exact sleeps.  All times are milliseconds from start:
`now` is the current time, `next` the next tick target
(`start + n·interval`).  The loop breaks once `now` reaches `endT`,
otherwise sleeps the remaining time to the next tick if positive, captures
(recorded as the capture instant), and advances the tick target by exactly
one interval.  Fuel bounds the iterations; `stealthTicks` supplies enough
of it. -/
def stealthLoop (interval endT : Nat) : Nat → Nat → Nat → List Nat
  | 0, _, _ => []
  | fuel + 1, now, next =>
    if endT ≤ now then []
    else
      let t := max now next
      t :: stealthLoop interval endT fuel t (next + interval)

/-- Capture instants of the stealth interval loop for the given interval
and duration (both in milliseconds): `interval = max 1 delta_ms`, the
first tick target is start itself (`next_ts = start`). -/
def stealthTicks (deltaMs lengthMs : Nat) : List Nat :=
  stealthLoop (max 1 deltaMs) lengthMs (lengthMs + 2) 0 0

/-- Label of an interval frame: `stealth_{elapsed:07d}ms`. -/
def stealthFrameLabel (t : Nat) : List Char :=
  "stealth_".toList ++ (padZeros 7 t ++ "ms".toList)

/-- Capture filenames of one `run_stealth` invocation under the idealised
timing: the after-launch frame, the interval frames, and the after-stealth
frame, numbered by the capture counter from 0. -/
def runStealthFrames (deltaMs lengthMs : Nat) : List (List Char) :=
  capturePathsFrom 0
    ("after_launch".toList :: ((stealthTicks deltaMs lengthMs).map stealthFrameLabel
      ++ ["after_stealth".toList]))

/-- Observable actions of one orchestrator run. -/
inductive Action where
  | spawn
  | sleepLaunchWait
  | settle
  | capture (path : List Char)
  | sleepDelta (d : Dec)
  | dispatch (index : Nat) (kind : String)
  | windowClose
  | pollExit
  | waitExit
  | terminate
  | waitGrace
  | kill
deriving DecidableEq, Repr

/-- Which platform branch the runner takes (the module-level IS_LINUX and
IS_WINDOWS flags). -/
inductive OsKind where
  | linux
  | windows
deriving DecidableEq, Repr

/-- Ceiling of `10 * t` for a decimal `t`, clamped at 0: the number of
0.1-second poll iterations that fit into the timeout `t`. -/
def pollBudget (t : Dec) : Nat :=
  (-((-(t.m * 10)).fdiv ((10 : Int) ^ t.e))).toNat

/-- Embedding of `_await_exit`: returns immediately when the configured
exit timeout is not positive; otherwise on Linux polls the process monitor
on a 0.1-second cadence until the process stops running or the timeout
elapses, and on Windows blocks in a single process wait.  `stopsAfter`
gives the number of polls after which the monitor first reports the
process gone (none: not within this run). -/
def awaitExit (os : OsKind) (exitTimeout : Dec) (stopsAfter : Option Nat) : List Action :=
  if exitTimeout.isNonPos then []
  else
    match os with
    | .windows => [Action.waitExit]
    | .linux =>
      match stopsAfter with
      | some k => List.replicate (min (k + 1) (pollBudget exitTimeout)) Action.pollExit
      | none => List.replicate (pollBudget exitTimeout) Action.pollExit

/-- Embedding of `_cleanup_process`: nothing when the process already
exited; otherwise terminate, wait up to the 5-second grace period, and
force-kill when that wait times out. -/
def cleanupProcess (alive : Bool) (exitsWithinGrace : Bool) : List Action :=
  if alive then
    if exitsWithinGrace then [Action.terminate, Action.waitGrace]
    else [Action.terminate, Action.waitGrace, Action.kill]
  else []

/-- The AutomationConfig fields the embedded replay path reads. -/
structure Config where
  exitTimeout : Dec
  captureDelay : Dec
deriving DecidableEq, Repr

/-- Environment of one run: the external-world outcomes the orchestrator
reacts to. -/
structure RunEnv where
  exeExists : Bool
  windowFound : Bool
  exitStopsAfter : Option Nat
  aliveAtCleanup : Bool
  exitsWithinGrace : Bool
deriving DecidableEq, Repr

/-- Fatal failures `run` can raise. -/
inductive RunError where
  | exeMissing
  | windowTimeout
deriving DecidableEq, Repr

/-- `_sleep_before_capture`: a settle sleep only when `capture_delay > 0`. -/
def settleActs (cfg : Config) : List Action :=
  if cfg.captureDelay.isPos then [Action.settle] else []

/-- The action kinds `_handle_event` feeds to the input injector (key
releases are observed and logged but not injected). -/
def injectedKinds : List String := ["mouse_press", "mouse_release", "key_press"]

/-- Embedding of `_handle_event`: sleep the event delta when positive,
dispatch by action kind; an exit event captures one frame at the event
path and requests window close, skipping the generic post-event capture;
every other event is followed by settle and one capture at the event path.
Returns the emitted actions and the advanced capture counter. -/
def handleEvent (cfg : Config) (cnt : Nat) (e : Event) : List Action × Nat :=
  let pre := if e.delta.isPos then [Action.sleepDelta e.delta] else []
  if e.action = "exit" then
    let (p, cnt2) := eventScreenshotPath cnt e
    (pre ++ settleActs cfg ++ [Action.capture p, Action.windowClose], cnt2)
  else
    let disp := if e.action ∈ injectedKinds then [Action.dispatch e.index e.action] else []
    let (p, cnt2) := eventScreenshotPath cnt e
    (pre ++ disp ++ settleActs cfg ++ [Action.capture p], cnt2)

/-- The replay loop over the parsed events, in order. -/
def handleEvents (cfg : Config) : Nat → List Event → List Action × Nat
  | cnt, [] => ([], cnt)
  | cnt, e :: rest =>
    let (a1, cnt2) := handleEvent cfg cnt e
    let (a2, cnt3) := handleEvents cfg cnt2 rest
    (a1 ++ a2, cnt3)

/-- Embedding of `AutomationRunner.run`: the executable precondition check
before any spawn, the spawn, then the guarded body (window discovery,
launch wait, settle, after-launch capture, event loop, exit wait) with
`_cleanup_process` appended on every way out — the try/finally of the
source.  Returns the outcome and the emitted action trace. -/
def run (os : OsKind) (cfg : Config) (env : RunEnv) (events : List Event) :
    Except RunError Unit × List Action :=
  if !env.exeExists then (.error .exeMissing, [])
  else
    let bodyResult : Except RunError (List Action) :=
      if !env.windowFound then .error .windowTimeout
      else
        let (p0, cnt0) := nextCapturePath 0 "after_launch".toList
        let (evActs, _) := handleEvents cfg cnt0 events
        .ok ([Action.sleepLaunchWait] ++ settleActs cfg ++ [Action.capture p0]
              ++ evActs ++ awaitExit os cfg.exitTimeout env.exitStopsAfter)
    let cleanup := cleanupProcess env.aliveAtCleanup env.exitsWithinGrace
    match bodyResult with
    | .error err => (.error err, Action.spawn :: cleanup)
    | .ok acts => (.ok (), Action.spawn :: (acts ++ cleanup))

/-- Fatal failures of the script mode of `main`. -/
inductive MainError where
  | noEvents
  | runFailure (e : RunError)
deriving DecidableEq, Repr

/-- Embedding of the script-mode tail of `main()`: an empty parsed event
list raises the distinct "No events to replay" error before any runner is
built; otherwise `run` is invoked and its failures surface to the caller. -/
def mainScriptMode (os : OsKind) (cfg : Config) (env : RunEnv) (events : List Event) :
    Except MainError Unit × List Action :=
  if events.isEmpty then (.error .noEvents, [])
  else
    match run os cfg env events with
    | (.error e, t) => (.error (.runFailure e), t)
    | (.ok _, t) => (.ok (), t)

/-- A stripped line the parser rejects.  The probe index 0 is irrelevant:
rejection is index-independent (`parseLine_error_indep`). -/
def lineRejected (l : List Char) : Bool :=
  match parseLine l 0 with
  | .error _ => true
  | .ok _ => false

/-- Body of a mouse-pressed line with an arbitrary button character. -/
def mouseBodyWith (c : Char) (details : List Char) : List Char :=
  "onMousePressed ".toList ++ c :: ':' :: ' ' :: details

/-- A full transcript line of the mouse-pressed shape with an arbitrary
button character, timestamp 1.000. -/
def mouseLineWith (c : Char) (details : List Char) : List Char :=
  "[ +1.000s ] ".toList ++ mouseBodyWith c details

theorem Dec.toRat_zero : Dec.zero.toRat = 0 := by
  simp [Dec.toRat, Dec.zero]

theorem Dec.pow_ten_pos (e : Nat) : (0 : ℚ) < (10 : ℚ) ^ e := by positivity

theorem Dec.toRat_sub (a b : Dec) : (a.sub b).toRat = a.toRat - b.toRat := by
  simp only [Dec.toRat, Dec.sub]
  have ha : ((10 : ℚ) ^ a.e) ≠ 0 := ne_of_gt (Dec.pow_ten_pos a.e)
  have hb : ((10 : ℚ) ^ b.e) ≠ 0 := ne_of_gt (Dec.pow_ten_pos b.e)
  rw [div_sub_div _ _ ha hb, pow_add]
  push_cast
  ring_nf

theorem Dec.isNeg_iff (a : Dec) : a.isNeg = true ↔ a.toRat < 0 := by
  simp only [Dec.isNeg, decide_eq_true_eq, Dec.toRat]
  constructor
  · intro h
    apply div_neg_of_neg_of_pos _ (Dec.pow_ten_pos a.e)
    exact_mod_cast h
  · intro h
    by_contra hc
    push_neg at hc
    have h0 : (0 : ℚ) ≤ (a.m : ℚ) := by exact_mod_cast hc
    have := div_nonneg h0 (le_of_lt (Dec.pow_ten_pos a.e))
    linarith

theorem Dec.isPos_iff (a : Dec) : a.isPos = true ↔ 0 < a.toRat := by
  simp only [Dec.isPos, decide_eq_true_eq, Dec.toRat]
  constructor
  · intro h
    apply div_pos _ (Dec.pow_ten_pos a.e)
    exact_mod_cast h
  · intro h
    by_contra hc
    push_neg at hc
    have h0 : (a.m : ℚ) ≤ 0 := by exact_mod_cast hc
    have := div_nonpos_of_nonpos_of_nonneg h0 (le_of_lt (Dec.pow_ten_pos a.e))
    linarith

theorem Dec.isNonPos_iff (a : Dec) : a.isNonPos = true ↔ a.toRat ≤ 0 := by
  simp only [Dec.isNonPos, decide_eq_true_eq, Dec.toRat]
  constructor
  · intro h
    apply div_nonpos_of_nonpos_of_nonneg _ (le_of_lt (Dec.pow_ten_pos a.e))
    exact_mod_cast h
  · intro h
    by_contra hc
    push_neg at hc
    have h0 : (0 : ℚ) < (a.m : ℚ) := by exact_mod_cast hc
    have := div_pos h0 (Dec.pow_ten_pos a.e)
    linarith

theorem clamp_toRat (x p : Dec) :
    (if (x.sub p).isNeg then Dec.zero else x.sub p).toRat = max 0 (x.toRat - p.toRat) := by
  by_cases h : (x.sub p).isNeg = true
  · have hneg := (Dec.isNeg_iff _).mp h
    rw [Dec.toRat_sub] at hneg
    rw [if_pos h, Dec.toRat_zero, max_eq_left (le_of_lt hneg)]
  · have hge : ¬ (x.sub p).toRat < 0 := fun hc => h ((Dec.isNeg_iff _).mpr hc)
    rw [Dec.toRat_sub] at hge
    rw [if_neg h, Dec.toRat_sub, max_eq_right (not_lt.mp hge)]

theorem assignDeltasGo_toRat (p : Dec) (l : List Event) :
    (assignDeltasGo p l).map (fun e => e.delta.toRat)
      = List.zipWith (fun t q => max 0 (t - q))
          (l.map (fun e => e.timestamp.toRat))
          (p.toRat :: l.map (fun e => e.timestamp.toRat)) := by
  induction l generalizing p with
  | nil => rfl
  | cons e rest ih =>
    simp only [assignDeltasGo, List.map_cons, List.zipWith_cons_cons]
    congr 1
    · exact clamp_toRat e.timestamp p
    · exact ih e.timestamp

theorem assignDeltasGo_nonneg (p : Dec) (l : List Event) :
    ∀ e ∈ assignDeltasGo p l, 0 ≤ e.delta.toRat := by
  induction l generalizing p with
  | nil =>
    intro e he
    cases he
  | cons a rest ih =>
    intro e he
    simp only [assignDeltasGo, List.mem_cons] at he
    rcases he with rfl | h
    · show 0 ≤ (if (a.timestamp.sub p).isNeg then Dec.zero else a.timestamp.sub p).toRat
      rw [clamp_toRat]
      exact le_max_left 0 _
    · exact ih a.timestamp e h

/-- C1: the delta assignment walks events in parse order with a running
previous timestamp starting at 0.0; each event's delta is its declared
timestamp minus the immediately preceding event's declared timestamp (0
for the first event), clamped at zero — the running previous is the prior
event's own timestamp, not a running maximum — so every delta is
nonnegative, and on the two-line example with timestamps 1.000 and 0.500
the deltas are 1 and 0. -/
theorem C1_delta_assignment :
    (∀ events : List Event,
      (assignDeltas events).map (fun e => e.delta.toRat)
        = List.zipWith (fun t q => max 0 (t - q))
            (events.map (fun e => e.timestamp.toRat))
            (0 :: events.map (fun e => e.timestamp.toRat)))
    ∧ (∀ events : List Event, ∀ e ∈ assignDeltas events, 0 ≤ e.delta.toRat)
    ∧ (parse ["[ +1.000s ] onMousePressed L: window(10,10)".toList,
              "[ +0.500s ] onMouseReleased L: window(10,10)".toList]).map
        (fun evts => evts.map (fun e => (e.index, e.delta.toRat)))
        = Except.ok [(0, 1), (1, 0)] := by
  refine ⟨?_, ?_, ?_⟩
  · intro events
    have h := assignDeltasGo_toRat Dec.zero events
    rwa [Dec.toRat_zero] at h
  · intro events e he
    exact assignDeltasGo_nonneg Dec.zero events e he
  · have h : parse ["[ +1.000s ] onMousePressed L: window(10,10)".toList,
        "[ +0.500s ] onMouseReleased L: window(10,10)".toList]
        = Except.ok [
          { index := 0, timestamp := ⟨1000, 3⟩, delta := ⟨1000, 3⟩, action := "mouse_press",
            button := some "left", window_point := some (10, 10), world_point := none,
            raw := "[ +1.000s ] onMousePressed L: window(10,10)".toList },
          { index := 1, timestamp := ⟨500, 3⟩, delta := Dec.zero, action := "mouse_release",
            button := some "left", window_point := some (10, 10), world_point := none,
            raw := "[ +0.500s ] onMouseReleased L: window(10,10)".toList }] := rfl
    rw [h]
    simp only [Except.map, List.map_cons, List.map_nil]
    norm_num [Dec.toRat, Dec.zero]

/-- Witness for C1 at a concrete one-event list. -/
theorem C1_delta_assignment_witness :
    0 ≤ (({ index := 0, timestamp := ⟨5, 0⟩, delta := ⟨5, 0⟩, action := "exit", button := none,
            window_point := none, world_point := none, raw := [] } : Event)).delta.toRat :=
  C1_delta_assignment.2.1
    [{ index := 0, timestamp := ⟨5, 0⟩, delta := Dec.zero, action := "exit", button := none,
       window_point := none, world_point := none, raw := [] }] _ (by decide)

theorem parseLine_ok_index (line : List Char) (i : Nat) (e : Event)
    (h : parseLine line i = Except.ok e) : e.index = i := by
  unfold parseLine at h
  dsimp only [] at h
  repeat' split at h
  all_goals simp_all
  all_goals (subst h; rfl)

theorem parseLine_error_line (line : List Char) (i : Nat) (err : ParseErr)
    (h : parseLine line i = Except.error err) : err.line = line := by
  unfold parseLine at h
  dsimp only [] at h
  repeat' split at h
  all_goals simp_all [ParseErr.line]
  all_goals (subst h; rfl)

theorem parseLine_error_indep (line : List Char) (i j : Nat) (err : ParseErr)
    (h : parseLine line i = Except.error err) : parseLine line j = Except.error err := by
  unfold parseLine at h ⊢
  dsimp only [] at h ⊢
  repeat' split at h
  all_goals simp_all

theorem lineRejected_error (l : List Char) (hbad : lineRejected l = true) :
    ∃ err, parseLine l 0 = Except.error err := by
  unfold lineRejected at hbad
  cases hp : parseLine l 0 with
  | error e => exact ⟨e, rfl⟩
  | ok ev => rw [hp] at hbad; cases hbad

theorem lineRejected_of_error (l : List Char) (i : Nat) (err : ParseErr)
    (h : parseLine l i = Except.error err) : lineRejected l = true := by
  unfold lineRejected
  rw [parseLine_error_indep l i 0 err h]

theorem parseGo_cons_blank (a : List Char) (ls : List (List Char)) (acc : List Event)
    (hba : (stripChars a).isEmpty = true) :
    parseGo (a :: ls) acc = parseGo ls acc := by
  conv_lhs => unfold parseGo
  dsimp only []
  rw [if_pos hba]

theorem parseGo_cons_error (a : List Char) (ls : List (List Char)) (acc : List Event)
    (hba : (stripChars a).isEmpty = false) (err : ParseErr)
    (hp : parseLine (stripChars a) acc.length = Except.error err) :
    parseGo (a :: ls) acc = Except.error err := by
  conv_lhs => unfold parseGo
  dsimp only []
  rw [if_neg (by simp [hba]), hp]

theorem parseGo_cons_ok (a : List Char) (ls : List (List Char)) (acc : List Event)
    (hba : (stripChars a).isEmpty = false) (ev : Event)
    (hp : parseLine (stripChars a) acc.length = Except.ok ev) :
    parseGo (a :: ls) acc = parseGo ls (acc ++ [ev]) := by
  conv_lhs => unfold parseGo
  dsimp only []
  rw [if_neg (by simp [hba]), hp]

theorem assignDeltasGo_map_index (p : Dec) (l : List Event) :
    (assignDeltasGo p l).map Event.index = l.map Event.index := by
  induction l generalizing p with
  | nil => rfl
  | cons e rest ih => simp [assignDeltasGo, ih e.timestamp]

theorem assignDeltasGo_length (p : Dec) (l : List Event) :
    (assignDeltasGo p l).length = l.length := by
  induction l generalizing p with
  | nil => rfl
  | cons e rest ih => simp [assignDeltasGo, ih e.timestamp]

theorem parseGo_ok_shape (lines : List (List Char)) :
    ∀ acc evts : List Event, parseGo lines acc = Except.ok evts →
      evts.length = acc.length + lines.countP (fun l => !(stripChars l).isEmpty)
      ∧ (acc.map Event.index = List.range acc.length →
          evts.map Event.index = List.range evts.length) := by
  induction lines with
  | nil =>
    intro acc evts h
    unfold parseGo at h
    cases h
    simp
  | cons a ls ih =>
    intro acc evts h
    by_cases hba : (stripChars a).isEmpty = true
    · rw [parseGo_cons_blank a ls acc hba] at h
      obtain ⟨h1, h2⟩ := ih acc evts h
      refine ⟨?_, h2⟩
      rw [h1, List.countP_cons]
      simp [hba]
    · rw [Bool.not_eq_true] at hba
      cases hp : parseLine (stripChars a) acc.length with
      | error e =>
        rw [parseGo_cons_error a ls acc hba e hp] at h
        cases h
      | ok ev =>
        rw [parseGo_cons_ok a ls acc hba ev hp] at h
        obtain ⟨h1, h2⟩ := ih (acc ++ [ev]) evts h
        constructor
        · rw [h1, List.countP_cons]
          simp [hba]
          omega
        · intro hidx
          apply h2
          rw [List.map_append, hidx, List.length_append]
          simp [parseLine_ok_index _ _ _ hp, List.range_succ]

/-- C9: blank or whitespace-only lines are skipped without consuming an
index slot; a successful parse yields events with dense, strictly
increasing 0-based indices (event k has index k) and exactly one event per
non-blank line. -/
theorem C9_indices_dense (lines : List (List Char)) (evts : List Event)
    (h : parse lines = Except.ok evts) :
    evts.map Event.index = List.range evts.length
    ∧ evts.length = lines.countP (fun l => !(stripChars l).isEmpty) := by
  unfold parse at h
  cases hg : parseGo lines [] with
  | error e =>
    rw [hg] at h
    cases h
  | ok evts0 =>
    rw [hg] at h
    cases h
    obtain ⟨h1, h2⟩ := parseGo_ok_shape lines [] evts0 hg
    constructor
    · rw [assignDeltas, assignDeltasGo_map_index, assignDeltasGo_length]
      exact h2 (by simp)
    · rw [assignDeltas, assignDeltasGo_length, h1]
      simp

/-- Witness for C9 on a concrete two-line transcript with a blank line. -/
theorem C9_indices_dense_witness :
    ([{ index := 0, timestamp := ⟨1, 0⟩, delta := ⟨1, 0⟩, action := "exit", button := none,
        window_point := none, world_point := none,
        raw := "[ +1s ] exiting application".toList }] : List Event).map Event.index
      = List.range 1
    ∧ ([{ index := 0, timestamp := ⟨1, 0⟩, delta := ⟨1, 0⟩, action := "exit", button := none,
          window_point := none, world_point := none,
          raw := "[ +1s ] exiting application".toList }] : List Event).length
      = (["  ".toList, "[ +1s ] exiting application".toList] : List (List Char)).countP
          (fun l => !(stripChars l).isEmpty) :=
  C9_indices_dense ["  ".toList, "[ +1s ] exiting application".toList] _ (by rfl)

theorem parseGo_rejected (l : List Char)
    (hnb : (stripChars l).isEmpty = false)
    (hbad : lineRejected (stripChars l) = true) :
    ∀ lines : List (List Char), l ∈ lines → ∀ acc : List Event,
      ∃ err, parseGo lines acc = Except.error err
        ∧ ParseErr.line err ∈ lines.map stripChars
        ∧ lineRejected (ParseErr.line err) = true := by
  intro lines
  induction lines with
  | nil =>
    intro hmem
    cases hmem
  | cons a ls ih =>
    intro hmem acc
    by_cases hba : (stripChars a).isEmpty = true
    · have hmem2 : l ∈ ls := by
        rcases List.mem_cons.mp hmem with rfl | hm
        · rw [hba] at hnb; cases hnb
        · exact hm
      obtain ⟨err, h1, h2, h3⟩ := ih hmem2 acc
      refine ⟨err, ?_, ?_, h3⟩
      · rw [parseGo_cons_blank a ls acc hba]; exact h1
      · simp only [List.map_cons, List.mem_cons]
        exact Or.inr h2
    · rw [Bool.not_eq_true] at hba
      cases hp : parseLine (stripChars a) acc.length with
      | error e =>
        have hl := parseLine_error_line _ _ _ hp
        refine ⟨e, parseGo_cons_error a ls acc hba e hp, ?_, ?_⟩
        · rw [hl]
          exact List.mem_map_of_mem stripChars (List.mem_cons_self a ls)
        · rw [hl]
          exact lineRejected_of_error _ _ _ hp
      | ok ev =>
        have hmem2 : l ∈ ls := by
          rcases List.mem_cons.mp hmem with rfl | hm
          · obtain ⟨err0, he0⟩ := lineRejected_error _ hbad
            have hcontra := parseLine_error_indep _ 0 acc.length err0 he0
            rw [hcontra] at hp
            cases hp
          · exact hm
        obtain ⟨err, h1, h2, h3⟩ := ih hmem2 (acc ++ [ev])
        refine ⟨err, ?_, ?_, h3⟩
        · rw [parseGo_cons_ok a ls acc hba ev hp]; exact h1
        · simp only [List.map_cons, List.mem_cons]
          exact Or.inr h2

/-- C6: a transcript containing a non-blank line that matches no event
form (or lacks a valid timestamp prefix) makes the whole parse abort with
an error identifying an offending line — no event list is returned. -/
theorem C6_parse_aborts (lines : List (List Char)) (l : List Char)
    (hmem : l ∈ lines) (hnb : (stripChars l).isEmpty = false)
    (hbad : lineRejected (stripChars l) = true) :
    ∃ err, parse lines = Except.error err
      ∧ ParseErr.line err ∈ lines.map stripChars
      ∧ lineRejected (ParseErr.line err) = true
      ∧ ¬ ∃ evts, parse lines = Except.ok evts := by
  obtain ⟨err, h1, h2, h3⟩ := parseGo_rejected l hnb hbad lines hmem []
  refine ⟨err, ?_, h2, h3, ?_⟩
  · unfold parse
    rw [h1]
  · rintro ⟨evts, hok⟩
    unfold parse at hok
    rw [h1] at hok
    cases hok

/-- Witness for C6 on the malformed one-line transcript "garbage". -/
theorem C6_parse_aborts_witness :
    ∃ err, parse ["garbage".toList] = Except.error err
      ∧ ParseErr.line err ∈ (["garbage".toList] : List (List Char)).map stripChars
      ∧ lineRejected (ParseErr.line err) = true
      ∧ ¬ ∃ evts, parse ["garbage".toList] = Except.ok evts :=
  C6_parse_aborts ["garbage".toList] "garbage".toList (by decide) (by rfl) (by rfl)

theorem matchMouse_button_mem (body : List Char) (st : Bool) (b : Char) (d : List Char)
    (h : matchMouse body = some (st, b, d)) : b ∈ buttonChars := by
  unfold matchMouse at h
  dsimp only [] at h
  repeat' split at h
  all_goals simp_all [Option.map_eq_some]
  all_goals (obtain ⟨a, h1, h2, rfl, h4⟩ := h; assumption)

theorem parseLine_mouse (line : List Char) (i : Nat) (ts : Dec) (body : List Char)
    (st : Bool) (b : Char) (d : List Char)
    (hd : matchDelta line = some (ts, body)) (hm : matchMouse body = some (st, b, d)) :
    parseLine line i = Except.ok
      { index := i, timestamp := ts, delta := Dec.zero,
        action := if st then "mouse_press" else "mouse_release",
        button := some (if b = 'L' ∨ b = 'l' then "left" else "right"),
        window_point := (searchWindow d).map (fun p => (roundHalfEven p.1, roundHalfEven p.2)),
        world_point := searchWorld d, raw := line } := by
  have hb := matchMouse_button_mem body st b d hm
  unfold parseLine
  rw [hd]
  dsimp only []
  rw [hm]
  dsimp only []
  fin_cases hb <;> cases st <;> rfl

theorem parseLine_ok_mouse_button (line : List Char) (i : Nat) (e : Event)
    (h : parseLine line i = Except.ok e)
    (ha : e.action = "mouse_press" ∨ e.action = "mouse_release") :
    e.button = some "left" ∨ e.button = some "right" := by
  unfold parseLine at h
  dsimp only [] at h
  repeat' split at h
  all_goals simp_all
  all_goals (subst h; rcases ha with ha | ha <;> simp_all)

theorem matchMouse_mouseBodyWith (c : Char) (d : List Char) (hc : c ∉ buttonChars) :
    matchMouse (mouseBodyWith c d) = none := by
  have hstep : matchMouse (mouseBodyWith c d)
      = match dropSpaces (c :: ':' :: ' ' :: d) with
        | b :: ':' :: r5 =>
          if b ∈ buttonChars then (tailCapture r5).map (fun dd => (true, b, dd)) else none
        | _ => none := rfl
  rw [hstep]
  by_cases hcs : isSpaceChar c = true
  · have h1 : dropSpaces (c :: ':' :: ' ' :: d) = ':' :: ' ' :: d := by
      simp only [dropSpaces, List.dropWhile_cons, hcs, if_true]
      rw [if_neg (by decide)]
    rw [h1]
    rfl
  · have h1 : dropSpaces (c :: ':' :: ' ' :: d) = c :: ':' :: ' ' :: d := by
      simp only [dropSpaces, List.dropWhile_cons, hcs]
      simp [hcs]
    rw [h1]
    have h2 : (match c :: ':' :: ' ' :: d with
        | b :: ':' :: r5 =>
          if b ∈ buttonChars then (tailCapture r5).map (fun dd => (true, b, dd)) else none
        | _ => none)
        = if c ∈ buttonChars then (tailCapture (' ' :: d)).map (fun dd => (true, c, dd))
          else none := rfl
    rw [h2, if_neg hc]

set_option maxRecDepth 4096 in
theorem parseLine_mouse_badButton (c : Char) (d : List Char) (i : Nat)
    (hc : c ∉ buttonChars)
    (hex : containsSub exitNeedle ((mouseBodyWith c d).map Char.toLower) = false) :
    parseLine (mouseLineWith c d) i
      = Except.error (ParseErr.unsupported (mouseLineWith c d)) := by
  have hdelta : matchDelta (mouseLineWith c d) = some (⟨1000, 3⟩, mouseBodyWith c d) := rfl
  have hkey : matchKey (mouseBodyWith c d) = none := rfl
  unfold parseLine
  rw [hdelta]
  dsimp only []
  rw [matchMouse_mouseBodyWith c d hc]
  dsimp only []
  rw [hkey]
  dsimp only []
  rw [if_neg (by simp [hex])]

/-- C7: the mouse regex only admits the letters L and R (case-insensitive);
every parsed mouse event carries button "left" or "right", determined by
that letter (L gives "left", R gives "right"); and a line of the mouse
shape with any other button letter fails the whole parse (no event is
produced), as long as its text does not contain the exit phrase. -/
theorem C7_mouse_buttons :
    (∀ body st b d, matchMouse body = some (st, b, d) → b ∈ buttonChars)
    ∧ (∀ line i e, parseLine line i = Except.ok e →
        e.action = "mouse_press" ∨ e.action = "mouse_release" →
        e.button = some "left" ∨ e.button = some "right")
    ∧ (∀ line i ts body st b d, matchDelta line = some (ts, body) →
        matchMouse body = some (st, b, d) →
        parseLine line i = Except.ok
          { index := i, timestamp := ts, delta := Dec.zero,
            action := if st then "mouse_press" else "mouse_release",
            button := some (if b = 'L' ∨ b = 'l' then "left" else "right"),
            window_point := (searchWindow d).map
              (fun p => (roundHalfEven p.1, roundHalfEven p.2)),
            world_point := searchWorld d, raw := line })
    ∧ (∀ c d i, c ∉ buttonChars →
        containsSub exitNeedle ((mouseBodyWith c d).map Char.toLower) = false →
        parseLine (mouseLineWith c d) i
          = Except.error (ParseErr.unsupported (mouseLineWith c d))) :=
  ⟨matchMouse_button_mem, parseLine_ok_mouse_button,
   fun line i ts body st b d hd hm => parseLine_mouse line i ts body st b d hd hm,
   parseLine_mouse_badButton⟩

/-- Witness for C7: button letter M fails, button letter L gives "left",
button letter R gives "right". -/
theorem C7_mouse_buttons_witness :
    parseLine (mouseLineWith 'M' "x".toList) 0
      = Except.error (ParseErr.unsupported (mouseLineWith 'M' "x".toList))
    ∧ parseLine "[ +1.000s ] onMousePressed L: x".toList 0
      = Except.ok
          { index := 0, timestamp := ⟨1000, 3⟩, delta := Dec.zero,
            action := "mouse_press", button := some "left", window_point := none,
            world_point := none, raw := "[ +1.000s ] onMousePressed L: x".toList }
    ∧ parseLine "[ +1.000s ] onMouseReleased R: x".toList 0
      = Except.ok
          { index := 0, timestamp := ⟨1000, 3⟩, delta := Dec.zero,
            action := "mouse_release", button := some "right", window_point := none,
            world_point := none, raw := "[ +1.000s ] onMouseReleased R: x".toList } :=
  ⟨C7_mouse_buttons.2.2.2 'M' "x".toList 0 (by decide) (by rfl),
   C7_mouse_buttons.2.2.1 "[ +1.000s ] onMousePressed L: x".toList 0 ⟨1000, 3⟩
     "onMousePressed L: x".toList true 'L' "x".toList rfl rfl,
   C7_mouse_buttons.2.2.1 "[ +1.000s ] onMouseReleased R: x".toList 0 ⟨1000, 3⟩
     "onMouseReleased R: x".toList false 'R' "x".toList rfl rfl⟩

theorem handleEvents_cons (cfg : Config) (cnt : Nat) (e : Event) (rest : List Event) :
    handleEvents cfg cnt (e :: rest)
      = ((handleEvent cfg cnt e).1 ++ (handleEvents cfg (handleEvent cfg cnt e).2 rest).1,
         (handleEvents cfg (handleEvent cfg cnt e).2 rest).2) := rfl

theorem handleEvent_no_poll (cfg : Config) (cnt : Nat) (e : Event) :
    Action.pollExit ∉ (handleEvent cfg cnt e).1
    ∧ Action.waitExit ∉ (handleEvent cfg cnt e).1 := by
  unfold handleEvent
  dsimp only []
  by_cases hx : e.action = "exit" <;> simp [hx, settleActs]

theorem handleEvents_no_poll (cfg : Config) : ∀ (evs : List Event) (cnt : Nat),
    Action.pollExit ∉ (handleEvents cfg cnt evs).1
    ∧ Action.waitExit ∉ (handleEvents cfg cnt evs).1 := by
  intro evs
  induction evs with
  | nil =>
    intro cnt
    simp [handleEvents]
  | cons e rest ih =>
    intro cnt
    rw [handleEvents_cons]
    constructor
    · simp only [List.mem_append]
      rintro (h | h)
      · exact (handleEvent_no_poll cfg cnt e).1 h
      · exact (ih (handleEvent cfg cnt e).2).1 h
    · simp only [List.mem_append]
      rintro (h | h)
      · exact (handleEvent_no_poll cfg cnt e).2 h
      · exact (ih (handleEvent cfg cnt e).2).2 h

theorem awaitExit_nonpos (os : OsKind) (t : Dec) (stopsAfter : Option Nat)
    (ht : t.toRat ≤ 0) : awaitExit os t stopsAfter = [] := by
  unfold awaitExit
  rw [if_pos ((Dec.isNonPos_iff t).mpr ht)]

theorem run_error_shape (os : OsKind) (cfg : Config) (env : RunEnv) (events : List Event)
    (hexe : env.exeExists = true) (hwin : env.windowFound = false) :
    run os cfg env events
      = (Except.error RunError.windowTimeout,
         Action.spawn :: cleanupProcess env.aliveAtCleanup env.exitsWithinGrace) := by
  unfold run
  rw [hexe, hwin]
  rfl

theorem run_ok_shape (os : OsKind) (cfg : Config) (env : RunEnv) (events : List Event)
    (hexe : env.exeExists = true) (hwin : env.windowFound = true) :
    run os cfg env events
      = (Except.ok (),
         Action.spawn ::
           (([Action.sleepLaunchWait] ++ settleActs cfg
              ++ [Action.capture (nextCapturePath 0 "after_launch".toList).1]
              ++ (handleEvents cfg (nextCapturePath 0 "after_launch".toList).2 events).1
              ++ awaitExit os cfg.exitTimeout env.exitStopsAfter)
            ++ cleanupProcess env.aliveAtCleanup env.exitsWithinGrace)) := by
  unfold run
  rw [hexe, hwin]
  rfl

/-- C3: with the executable present the process is spawned, and the cleanup
step runs on every exit path — in particular a window-discovery timeout
returns the fatal error with the trace `spawn` followed directly by the
cleanup actions; when the process is still alive at cleanup it is
terminated and waited on for the grace period, and force-killed exactly
when that wait times out. -/
theorem C3_cleanup_always (os : OsKind) (cfg : Config) (env : RunEnv) (events : List Event)
    (hexe : env.exeExists = true) :
    (env.windowFound = false →
      run os cfg env events
        = (Except.error RunError.windowTimeout,
           Action.spawn :: cleanupProcess env.aliveAtCleanup env.exitsWithinGrace))
    ∧ (∃ pre, (run os cfg env events).2
        = Action.spawn :: (pre ++ cleanupProcess env.aliveAtCleanup env.exitsWithinGrace))
    ∧ (env.aliveAtCleanup = true →
        (cleanupProcess env.aliveAtCleanup env.exitsWithinGrace).take 2
          = [Action.terminate, Action.waitGrace]
        ∧ (env.exitsWithinGrace = false →
            Action.kill ∈ cleanupProcess env.aliveAtCleanup env.exitsWithinGrace)
        ∧ (env.exitsWithinGrace = true →
            Action.kill ∉ cleanupProcess env.aliveAtCleanup env.exitsWithinGrace))
    ∧ (env.aliveAtCleanup = false →
        cleanupProcess env.aliveAtCleanup env.exitsWithinGrace = []) := by
  refine ⟨fun hwin => run_error_shape os cfg env events hexe hwin, ?_, ?_, ?_⟩
  · by_cases hwin : env.windowFound = true
    · rw [run_ok_shape os cfg env events hexe hwin]
      exact ⟨_, rfl⟩
    · rw [Bool.not_eq_true] at hwin
      rw [run_error_shape os cfg env events hexe hwin]
      exact ⟨[], rfl⟩
  · intro halive
    refine ⟨?_, ?_, ?_⟩
    · by_cases hg : env.exitsWithinGrace = true <;> simp [cleanupProcess, halive, hg]
    · intro hgrace
      simp [cleanupProcess, halive, hgrace]
    · intro hgrace
      simp [cleanupProcess, halive, hgrace]
  · intro halive
    simp [cleanupProcess, halive]

/-- Witness for C3: a discovery timeout with a live, hung process yields
the error and the trace spawn, terminate, wait, kill. -/
theorem C3_cleanup_always_witness :
    run OsKind.linux ⟨⟨10, 0⟩, ⟨0, 0⟩⟩ ⟨true, false, none, true, false⟩ []
      = (Except.error RunError.windowTimeout,
         [Action.spawn, Action.terminate, Action.waitGrace, Action.kill]) := by
  have h := (C3_cleanup_always OsKind.linux ⟨⟨10, 0⟩, ⟨0, 0⟩⟩
    ⟨true, false, none, true, false⟩ [] rfl).1 rfl
  simpa [cleanupProcess] using h

/-- C8: a missing executable fails the run fast with its own fatal error
before any spawn, and an empty parsed event list is reported by the script
mode of main as the distinct no-events fatal error without building a
runner — both errors are distinct constructors surfaced to the caller. -/
theorem C8_precondition_failures (os : OsKind) (cfg : Config) (env : RunEnv)
    (events : List Event) :
    (env.exeExists = false →
      run os cfg env events = (Except.error RunError.exeMissing, [])
      ∧ Action.spawn ∉ (run os cfg env events).2)
    ∧ (events = [] →
      mainScriptMode os cfg env events = (Except.error MainError.noEvents, [])
      ∧ Action.spawn ∉ (mainScriptMode os cfg env events).2
      ∧ MainError.noEvents ≠ MainError.runFailure RunError.exeMissing
      ∧ MainError.noEvents ≠ MainError.runFailure RunError.windowTimeout) := by
  constructor
  · intro hexe
    have h : run os cfg env events = (Except.error RunError.exeMissing, []) := by
      unfold run
      rw [hexe]
      rfl
    rw [h]
    simp
  · intro hev
    subst hev
    have h : mainScriptMode os cfg env [] = (Except.error MainError.noEvents, []) := by
      unfold mainScriptMode
      rfl
    rw [h]
    refine ⟨rfl, by simp, by simp, by simp⟩

/-- Witness for C8 at a concrete configuration. -/
theorem C8_precondition_failures_witness :
    run OsKind.windows ⟨⟨10, 0⟩, ⟨0, 0⟩⟩ ⟨false, true, none, false, true⟩ []
      = (Except.error RunError.exeMissing, [])
    ∧ mainScriptMode OsKind.windows ⟨⟨10, 0⟩, ⟨0, 0⟩⟩ ⟨false, true, none, false, true⟩ []
      = (Except.error MainError.noEvents, []) :=
  ⟨((C8_precondition_failures OsKind.windows ⟨⟨10, 0⟩, ⟨0, 0⟩⟩
      ⟨false, true, none, false, true⟩ []).1 rfl).1,
   ((C8_precondition_failures OsKind.windows ⟨⟨10, 0⟩, ⟨0, 0⟩⟩
      ⟨false, true, none, false, true⟩ []).2 rfl).1⟩

/-- C10: a non-positive process-exit timeout makes the exit wait return
immediately — no process-monitor poll and no process wait occur anywhere
in the run — while the cleanup step still runs afterwards. -/
theorem C10_exit_wait_skipped (os : OsKind) (cfg : Config) (env : RunEnv)
    (events : List Event) (ht : cfg.exitTimeout.toRat ≤ 0) :
    awaitExit os cfg.exitTimeout env.exitStopsAfter = []
    ∧ Action.pollExit ∉ (run os cfg env events).2
    ∧ Action.waitExit ∉ (run os cfg env events).2
    ∧ (env.exeExists = true →
        ∃ pre, (run os cfg env events).2
          = Action.spawn :: (pre ++ cleanupProcess env.aliveAtCleanup env.exitsWithinGrace)) := by
  have hawait := awaitExit_nonpos os cfg.exitTimeout env.exitStopsAfter ht
  have htrace : Action.pollExit ∉ (run os cfg env events).2
      ∧ Action.waitExit ∉ (run os cfg env events).2 := by
    by_cases hexe : env.exeExists = true
    · by_cases hwin : env.windowFound = true
      · rw [run_ok_shape os cfg env events hexe hwin]
        have hev := handleEvents_no_poll cfg events (nextCapturePath 0 "after_launch".toList).2
        constructor
        · intro hmem
          simp only [List.mem_cons, List.mem_append, List.mem_singleton, hawait,
            List.not_mem_nil, or_false, false_or, settleActs, cleanupProcess] at hmem
          split_ifs at hmem <;> simp_all
        · intro hmem
          simp only [List.mem_cons, List.mem_append, List.mem_singleton, hawait,
            List.not_mem_nil, or_false, false_or, settleActs, cleanupProcess] at hmem
          split_ifs at hmem <;> simp_all
      · rw [Bool.not_eq_true] at hwin
        rw [run_error_shape os cfg env events hexe hwin]
        constructor
        · intro hmem
          simp only [List.mem_cons, cleanupProcess] at hmem
          split_ifs at hmem <;> simp_all
        · intro hmem
          simp only [List.mem_cons, cleanupProcess] at hmem
          split_ifs at hmem <;> simp_all
    · rw [Bool.not_eq_true] at hexe
      have h : run os cfg env events = (Except.error RunError.exeMissing, []) := by
        unfold run
        rw [hexe]
        rfl
      rw [h]
      simp
  refine ⟨hawait, htrace.1, htrace.2, ?_⟩
  intro hexe
  by_cases hwin : env.windowFound = true
  · rw [run_ok_shape os cfg env events hexe hwin]
    exact ⟨_, rfl⟩
  · rw [Bool.not_eq_true] at hwin
    rw [run_error_shape os cfg env events hexe hwin]
    exact ⟨[], rfl⟩

/-- Witness for C10 at a zero exit timeout. -/
theorem C10_exit_wait_skipped_witness :
    awaitExit OsKind.linux (Dec.mk 0 0) (some 3) = []
    ∧ Action.pollExit ∉
        (run OsKind.linux ⟨⟨0, 0⟩, ⟨0, 0⟩⟩ ⟨true, true, some 3, true, true⟩ []).2 :=
  ⟨(C10_exit_wait_skipped OsKind.linux ⟨⟨0, 0⟩, ⟨0, 0⟩⟩ ⟨true, true, some 3, true, true⟩ []
      (by norm_num [Dec.toRat])).1,
   (C10_exit_wait_skipped OsKind.linux ⟨⟨0, 0⟩, ⟨0, 0⟩⟩ ⟨true, true, some 3, true, true⟩ []
      (by norm_num [Dec.toRat])).2.1⟩

theorem stealthLoop_head (i endT fuel now : Nat) :
    ∀ t ∈ (stealthLoop i endT fuel now (now + i)).head?, t = now + i := by
  intro t ht
  cases fuel with
  | zero => simp [stealthLoop] at ht
  | succ n =>
    unfold stealthLoop at ht
    by_cases h : endT ≤ now
    · rw [if_pos h] at ht
      simp at ht
    · rw [if_neg h] at ht
      dsimp only [] at ht
      rw [max_eq_right (Nat.le_add_right now i)] at ht
      simp_all

theorem stealthLoop_chain (i endT : Nat) :
    ∀ (fuel now : Nat),
      List.Chain' (fun a b => b = a + i) (stealthLoop i endT fuel now (now + i)) := by
  intro fuel
  induction fuel with
  | zero =>
    intro now
    simp [stealthLoop]
  | succ n ih =>
    intro now
    unfold stealthLoop
    by_cases h : endT ≤ now
    · rw [if_pos h]
      exact List.chain'_nil
    · rw [if_neg h]
      dsimp only []
      rw [max_eq_right (Nat.le_add_right now i)]
      refine List.chain'_cons'.mpr ⟨?_, ?_⟩
      · intro y hy
        exact stealthLoop_head i endT n (now + i) y hy
      · exact ih (now + i)

theorem stealthTicks_chain (d l : Nat) :
    List.Chain' (fun a b => b = a + max 1 d) (stealthTicks d l) := by
  unfold stealthTicks
  rw [show l + 2 = (l + 1) + 1 from rfl]
  unfold stealthLoop
  by_cases h : l ≤ 0
  · rw [if_pos h]
    exact List.chain'_nil
  · rw [if_neg h]
    dsimp only []
    rw [max_self]
    refine List.chain'_cons'.mpr ⟨?_, ?_⟩
    · intro y hy
      exact stealthLoop_head (max 1 d) l (l + 1) 0 y hy
    · exact stealthLoop_chain (max 1 d) l (l + 1) 0

theorem stealthTicks_head (d l : Nat) (hl : l ≠ 0) : (stealthTicks d l).head? = some 0 := by
  unfold stealthTicks
  rw [show l + 2 = (l + 1) + 1 from rfl]
  unfold stealthLoop
  rw [if_neg (by omega)]
  dsimp only []
  rw [max_self]
  rfl

theorem stealthLoop_bound (i endT : Nat) :
    ∀ (fuel now next : Nat), next ≤ now + i →
      ∀ t ∈ stealthLoop i endT fuel now next, t < endT + i := by
  intro fuel
  induction fuel with
  | zero =>
    intro now next hinv t ht
    simp [stealthLoop] at ht
  | succ n ih =>
    intro now next hinv t ht
    unfold stealthLoop at ht
    by_cases h : endT ≤ now
    · rw [if_pos h] at ht
      simp at ht
    · rw [if_neg h] at ht
      dsimp only [] at ht
      rcases List.mem_cons.mp ht with rfl | ht2
      · have h2 : max now next ≤ now + i := max_le (by omega) hinv
        omega
      · exact ih (max now next) (next + i)
          (by have h3 : next ≤ max now next := le_max_right now next; omega) t ht2

theorem stealthTicks_bound (d l : Nat) : ∀ t ∈ stealthTicks d l, t < l + max 1 d :=
  fun t ht => stealthLoop_bound (max 1 d) l (l + 2) 0 0 (by omega) t ht

theorem stealthTicks_zero (d : Nat) : stealthTicks d 0 = [] := by
  unfold stealthTicks
  rw [show (0 : Nat) + 2 = 1 + 1 from rfl]
  unfold stealthLoop
  rw [if_pos (Nat.le_refl 0)]

/-- C4 counterexample: for interval 50 ms and duration 200 ms the stealth
loop captures an interval frame immediately at tick 0 (the next-tick
target starts at start itself), so there are 5 interval frames at ticks
0, 50, 100, 150, 200 and 7 frames total — not the claimed 4 and 6. -/
theorem C4_stealth_counterexample :
    stealthTicks 50 200 = [0, 50, 100, 150, 200]
    ∧ (stealthTicks 50 200).length = 5
    ∧ (stealthTicks 50 200).length ≠ 4
    ∧ (runStealthFrames 50 200).length = 7
    ∧ (runStealthFrames 50 200).length ≠ 6 :=
  ⟨rfl, rfl, by decide, rfl, by decide⟩

/-- C4 amended: for interval 50 ms and duration 200 ms the run produces one
after-launch frame, five interval frames at ticks 0, 50, 100, 150, 200 —
the first fires immediately because the next-tick target starts at start —
and one after-stealth frame, 7 total; in general consecutive capture ticks
advance by exactly one interval, the first tick is 0, every tick t
satisfies t < duration + interval (the loop stops once wall-clock time
reaches start + duration), and a zero duration produces no interval
frames. -/
theorem C4_stealth_amended :
    stealthTicks 50 200 = [0, 50, 100, 150, 200]
    ∧ (runStealthFrames 50 200).length = 7
    ∧ (∀ d l, List.Chain' (fun a b => b = a + max 1 d) (stealthTicks d l))
    ∧ (∀ d l, l ≠ 0 → (stealthTicks d l).head? = some 0)
    ∧ (∀ d l, ∀ t ∈ stealthTicks d l, t < l + max 1 d)
    ∧ (∀ d, stealthTicks d 0 = []) :=
  ⟨rfl, rfl, stealthTicks_chain, stealthTicks_head, stealthTicks_bound, stealthTicks_zero⟩

/-- Witness for the amended C4 at interval 50, duration 200. -/
theorem C4_stealth_amended_witness :
    (stealthTicks 50 200).head? = some 0 ∧ (200 : Nat) < 200 + max 1 50 :=
  ⟨C4_stealth_amended.2.2.2.1 50 200 (by decide),
   C4_stealth_amended.2.2.2.2.1 50 200 200 (by decide)⟩

/-- C2 counterexample: on the Windows path, when the client region is
available but all three capture primitives fail, the exception of the
final full-screen tier escapes the tiered capture operation — it is not
caught and logged. -/
theorem C2_capture_counterexample :
    captureWindowWindows
      { clientRegion := some (0, 0, 100, 100), regionShotOk := false,
        windowShotOk := false, screenShotOk := false } = Except.error () := rfl

/-- C2 amended: the tier order is client region, then native window
capture, then full screen, first success wins; on Windows the first two
tiers catch their failures, but the operation raises exactly when the
earlier tiers fail and the final full-screen capture also fails; the Linux
path is total — the backend primitives catch their own exceptions and
report booleans, and total failure is reported (logged) rather than
raised. -/
theorem C2_capture_amended :
    (∀ env : WinCaptureEnv, env.clientRegion.isSome = true → env.regionShotOk = true →
        captureWindowWindows env = Except.ok CaptureTier.clientRegion)
    ∧ (∀ env : WinCaptureEnv,
        (env.clientRegion.isSome = false ∨ env.regionShotOk = false) →
        env.windowShotOk = true →
        captureWindowWindows env = Except.ok CaptureTier.nativeWindow)
    ∧ (∀ env : WinCaptureEnv,
        (env.clientRegion.isSome = false ∨ env.regionShotOk = false) →
        env.windowShotOk = false → env.screenShotOk = true →
        captureWindowWindows env = Except.ok CaptureTier.fullScreen)
    ∧ (∀ env : WinCaptureEnv, captureWindowWindows env = Except.error ()
        ↔ (env.clientRegion.isSome = false ∨ env.regionShotOk = false)
          ∧ env.windowShotOk = false ∧ env.screenShotOk = false)
    ∧ (∀ wT wOk sT sOk, x11CaptureOk wT wOk = true →
        captureWindowLinux wT wOk sT sOk = LinuxCaptureResult.window)
    ∧ (∀ wT wOk sT sOk, x11CaptureOk wT wOk = false → x11CaptureOk sT sOk = true →
        captureWindowLinux wT wOk sT sOk = LinuxCaptureResult.fullScreen)
    ∧ (∀ wT wOk sT sOk,
        captureWindowLinux wT wOk sT sOk = LinuxCaptureResult.loggedTotalFailure
          ↔ x11CaptureOk wT wOk = false ∧ x11CaptureOk sT sOk = false) := by
  refine ⟨?_, ?_, ?_, ?_, ?_, ?_, ?_⟩
  · rintro ⟨cr, r, w, s⟩ h1 h2
    cases cr <;> cases r <;> cases w <;> cases s <;> simp_all [captureWindowWindows]
  · rintro ⟨cr, r, w, s⟩ h1 h2
    cases cr <;> cases r <;> cases w <;> cases s <;> simp_all [captureWindowWindows]
  · rintro ⟨cr, r, w, s⟩ h1 h2 h3
    cases cr <;> cases r <;> cases w <;> cases s <;> simp_all [captureWindowWindows]
  · rintro ⟨cr, r, w, s⟩
    cases cr <;> cases r <;> cases w <;> cases s <;> simp_all [captureWindowWindows]
  · intro wT wOk sT sOk h
    cases wT <;> cases wOk <;> cases sT <;> cases sOk <;>
      simp_all [captureWindowLinux, x11CaptureOk]
  · intro wT wOk sT sOk h1 h2
    cases wT <;> cases wOk <;> cases sT <;> cases sOk <;>
      simp_all [captureWindowLinux, x11CaptureOk]
  · intro wT wOk sT sOk
    cases wT <;> cases wOk <;> cases sT <;> cases sOk <;>
      simp_all [captureWindowLinux, x11CaptureOk]

/-- Witness for the amended C2 at concrete tier outcomes. -/
theorem C2_capture_amended_witness :
    captureWindowWindows
      { clientRegion := some (0, 0, 100, 100), regionShotOk := true,
        windowShotOk := false, screenShotOk := false }
      = Except.ok CaptureTier.clientRegion
    ∧ captureWindowLinux false true false false = LinuxCaptureResult.window :=
  ⟨C2_capture_amended.1
    { clientRegion := some (0, 0, 100, 100), regionShotOk := true,
      windowShotOk := false, screenShotOk := false } rfl rfl,
   C2_capture_amended.2.2.2.2.1 false true false false rfl⟩

theorem digitsToNat_from (a : Nat) (ys : List Char) :
    ys.foldl (fun acc c => 10 * acc + (c.toNat - '0'.toNat)) a
      = a * 10 ^ ys.length + digitsToNat ys := by
  induction ys generalizing a with
  | nil => simp [digitsToNat]
  | cons c ys ih =>
    simp only [List.foldl_cons, List.length_cons]
    rw [ih (10 * a + (c.toNat - '0'.toNat))]
    have hc : digitsToNat (c :: ys) = (c.toNat - '0'.toNat) * 10 ^ ys.length + digitsToNat ys := by
      unfold digitsToNat
      rw [List.foldl_cons]
      have := ih (10 * 0 + (c.toNat - '0'.toNat))
      simpa using this
    rw [hc, pow_succ]
    ring

theorem digitsToNat_append (xs ys : List Char) :
    digitsToNat (xs ++ ys) = digitsToNat xs * 10 ^ ys.length + digitsToNat ys := by
  unfold digitsToNat
  rw [List.foldl_append]
  exact digitsToNat_from _ ys

theorem digitsToNat_cons_zero (l : List Char) : digitsToNat ('0' :: l) = digitsToNat l := rfl

theorem digitsToNat_replicate_zero (k : Nat) :
    digitsToNat (List.replicate k '0') = 0 := by
  induction k with
  | zero => rfl
  | succ n ih =>
    rw [List.replicate_succ, digitsToNat_cons_zero]
    exact ih

theorem digitChar_toNat (k : Nat) (hk : k < 10) : (digitChar k).toNat - 48 = k := by
  interval_cases k <;> decide

theorem isDigit_digitChar (k : Nat) (hk : k < 10) : isDigitChar (digitChar k) = true := by
  interval_cases k <;> decide

theorem natDigitsGo_spec : ∀ (fuel n : Nat) (acc : List Char), n < 10 ^ fuel →
    digitsToNat (natDigitsGo fuel n acc) = n * 10 ^ acc.length + digitsToNat acc := by
  intro fuel
  induction fuel with
  | zero =>
    intro n acc h
    simp only [pow_zero, Nat.lt_one_iff] at h
    subst h
    simp [natDigitsGo]
  | succ f ih =>
    intro n acc h
    unfold natDigitsGo
    by_cases h10 : n < 10
    · rw [if_pos h10]
      unfold digitsToNat
      rw [List.foldl_cons]
      rw [digitsToNat_from]
      simp [digitChar_toNat n h10]
      rfl
    · rw [if_neg h10]
      have hrec : n / 10 < 10 ^ f := by
        rw [pow_succ] at h
        omega
      rw [ih (n / 10) (digitChar (n % 10) :: acc) hrec]
      have hdc : digitsToNat (digitChar (n % 10) :: acc)
          = (n % 10) * 10 ^ acc.length + digitsToNat acc := by
        unfold digitsToNat
        rw [List.foldl_cons, digitsToNat_from]
        simp [digitChar_toNat (n % 10) (Nat.mod_lt n (by norm_num))]
        rfl
      rw [hdc]
      simp only [List.length_cons, pow_succ]
      have hn : n = 10 * (n / 10) + n % 10 := by omega
      set q := n / 10
      set r := n % 10
      rw [hn]
      ring

theorem digitsToNat_natDigits (n : Nat) : digitsToNat (natDigits n) = n := by
  unfold natDigits
  have hbound : n < 10 ^ (n + 1) :=
    lt_of_lt_of_le (Nat.lt_pow_self (by norm_num) n)
      (Nat.pow_le_pow_right (by norm_num) (Nat.le_succ n))
  rw [natDigitsGo_spec (n + 1) n [] hbound]
  simp [digitsToNat]

theorem natDigitsGo_digits : ∀ (fuel n : Nat) (acc : List Char),
    (∀ c ∈ acc, isDigitChar c = true) →
    ∀ c ∈ natDigitsGo fuel n acc, isDigitChar c = true := by
  intro fuel
  induction fuel with
  | zero =>
    intro n acc hacc c hc
    exact hacc c hc
  | succ f ih =>
    intro n acc hacc c hc
    unfold natDigitsGo at hc
    by_cases h10 : n < 10
    · rw [if_pos h10] at hc
      rcases List.mem_cons.mp hc with rfl | h
      · exact isDigit_digitChar n h10
      · exact hacc c h
    · rw [if_neg h10] at hc
      refine ih (n / 10) (digitChar (n % 10) :: acc) ?_ c hc
      intro x hx
      rcases List.mem_cons.mp hx with rfl | h
      · exact isDigit_digitChar (n % 10) (Nat.mod_lt n (by norm_num))
      · exact hacc x h

theorem natDigits_digits (n : Nat) : ∀ c ∈ natDigits n, isDigitChar c = true :=
  natDigitsGo_digits (n + 1) n [] (by intro c hc; cases hc)

theorem padZeros_digits (w n : Nat) : ∀ c ∈ padZeros w n, isDigitChar c = true := by
  intro c hc
  unfold padZeros at hc
  rcases List.mem_append.mp hc with h | h
  · rw [List.eq_of_mem_replicate h]
    decide
  · exact natDigits_digits n c h

theorem digitsToNat_padZeros (w n : Nat) : digitsToNat (padZeros w n) = n := by
  unfold padZeros
  rw [digitsToNat_append, digitsToNat_replicate_zero, digitsToNat_natDigits]
  simp

theorem takeWhile_append_not (p : Char → Bool) (xs : List Char) (y : Char) (ys : List Char)
    (hxs : ∀ c ∈ xs, p c = true) (hy : p y = false) :
    (xs ++ y :: ys).takeWhile p = xs := by
  induction xs with
  | nil => simp [List.takeWhile_cons, hy]
  | cons a l ih =>
    have ha : p a = true := hxs a (List.mem_cons_self a l)
    simp [List.takeWhile_cons, ha, ih (fun c hc => hxs c (List.mem_cons_of_mem a hc))]

theorem counterOf_nextCapturePath (idx : Nat) (label : List Char) :
    counterOf (nextCapturePath idx label).1 = idx := by
  unfold counterOf nextCapturePath
  dsimp only []
  rw [takeWhile_append_not isDigitChar (padZeros 3 idx) '_' _ (padZeros_digits 3 idx) (by decide)]
  exact digitsToNat_padZeros 3 idx

theorem capturePathsFrom_counters (labs : List (List Char)) :
    ∀ start, (capturePathsFrom start labs).map counterOf = List.range' start labs.length := by
  induction labs with
  | nil =>
    intro start
    rfl
  | cons lab rest ih =>
    intro start
    show counterOf (nextCapturePath start lab).1 ::
        (capturePathsFrom (start + 1) rest).map counterOf
      = List.range' start (rest.length + 1)
    rw [counterOf_nextCapturePath, ih (start + 1), List.range'_succ]

theorem capturePathsFrom_counters_lt (labs : List (List Char)) (start : Nat) :
    ((capturePathsFrom start labs).map counterOf).Pairwise (· < ·) := by
  rw [capturePathsFrom_counters labs start]
  exact List.pairwise_lt_range' start labs.length
/-- C5 counterexample: the code's sanitiser collapses the run "!!" to a
single underscore, while the claim's per-character rule would produce two
underscores — exhibited on the event label "a!!b". -/
theorem C5_sanitize_counterexample :
    sanitizeLabel "a!!b".toList = "a_b".toList
    ∧ sanitizeLabelPerCharSpec "a!!b".toList = "a__b".toList
    ∧ sanitizeLabel "a!!b".toList ≠ sanitizeLabelPerCharSpec "a!!b".toList
    ∧ eventScreenshotLabel
        { index := 0, timestamp := Dec.zero, delta := Dec.zero, action := "a!!b",
          button := none, window_point := none, world_point := none, raw := [] }
        = "0000000_000_a_b".toList
    ∧ eventScreenshotLabel
        { index := 0, timestamp := Dec.zero, delta := Dec.zero, action := "a!!b",
          button := none, window_point := none, world_point := none, raw := [] }
        ≠ padIntZeros 7 0 ++ '_' ::
            (padZeros 3 0 ++ '_' :: sanitizeLabelPerCharSpec "a!!b".toList) :=
  ⟨rfl, rfl, by decide, rfl, by decide⟩

/-- C5 amended: every capture request yields
`{3-digit zero-padded counter}_{label}.png` and advances the counter by
exactly one regardless of the capture tier, so the counters of successive
filenames within one run are consecutive and strictly increasing;
event-associated captures use the label
`{7-digit millisecond timestamp}_{3-digit event index}_{sanitized label}`,
where sanitisation replaces each maximal run of characters outside
`[A-Za-z0-9_]` by a single underscore, strips enclosing underscores, and
falls back to the literal "event" when the result is empty. -/
theorem C5_filenames_amended :
    (∀ idx lab, (nextCapturePath idx lab).2 = idx + 1
      ∧ (nextCapturePath idx lab).1 = padZeros 3 idx ++ '_' :: (lab ++ ".png".toList))
    ∧ (∀ idx lab, counterOf (nextCapturePath idx lab).1 = idx)
    ∧ (∀ start labs, (capturePathsFrom start labs).map counterOf
        = List.range' start labs.length)
    ∧ (∀ start labs, ((capturePathsFrom start labs).map counterOf).Pairwise (· < ·))
    ∧ (∀ e : Event, eventScreenshotLabel e
        = padIntZeros 7 (roundHalfEven (e.timestamp.mulPow10 3)) ++ '_' ::
            (padZeros 3 e.index ++ '_' :: sanitizeLabel e.label.toList))
    ∧ sanitizeLabel "a!!b".toList = "a_b".toList
    ∧ sanitizeLabel "!!!".toList = "event".toList
    ∧ sanitizeLabel "__ab_c__".toList = "ab_c".toList :=
  ⟨fun _ _ => ⟨rfl, rfl⟩, counterOf_nextCapturePath,
   fun start labs => capturePathsFrom_counters labs start,
   fun start labs => capturePathsFrom_counters_lt labs start,
   fun _ => rfl, rfl, rfl, rfl⟩

end GD
